import Mathlib

/-!
Verification of the check/channel resource logic of terraform-provider-binocs.

The Go sources (`internal/provider/resource_check.go`,
`internal/provider/resource_channel.go`) are shallowly embedded below.
Go strings are modelled as `List Char` (all characters relevant to the
claims are ASCII, where Go's byte-wise operations and the char-wise model
agree); `String` wrappers are provided for the statements.  Fallible Go
code returning `(value, error)` is modelled with `Except`/`Option`.
-/

namespace Binocs

/-- Numeric range test on `Nat`, used to express ASCII character classes. -/
def between (lo hi n : Nat) : Bool := decide (lo ≤ n ∧ n ≤ hi)

/-- ASCII decimal digit `[0-9]`. -/
def isDigitCh (c : Char) : Bool := between 48 57 c.toNat

/-- ASCII letter `[a-zA-Z]`. -/
def isAlphaCh (c : Char) : Bool := between 65 90 c.toNat || between 97 122 c.toNat

/-- Go `strings.ToLower`, restricted to its ASCII behaviour (the only
characters the provider ever lower-cases are ASCII scheme characters). -/
def goToLower (c : Char) : Char :=
  if 65 ≤ c.toNat ∧ c.toNat ≤ 90 then Char.ofNat (c.toNat + 32) else c

/-- Go `strings.ToUpper`, restricted to its ASCII behaviour (the only
characters whose case matters to the claims are ASCII). -/
def goToUpper (c : Char) : Char :=
  if 97 ≤ c.toNat ∧ c.toNat ≤ 122 then Char.ofNat (c.toNat - 32) else c

/-- Go `strings.Split(s, sep)` for a one-character separator (the provider
only ever splits on `":"`, `"."` and `"@"`).  Returns the (always
non-empty) list of chunks between occurrences of `sep`. -/
def splitOnChar (sep : Char) : List Char → List (List Char)
  | [] => [[]]
  | c :: rest =>
    if c = sep then [] :: splitOnChar sep rest
    else
      match splitOnChar sep rest with
      | [] => [[c]]
      | h :: t => (c :: h) :: t

/-- Go `strings.Contains(hay, needle)`: substring occurrence test. -/
def goContainsL : List Char → List Char → Bool
  | hay, needle =>
    needle.isPrefixOf hay ||
      match hay with
      | [] => false
      | _ :: t => goContainsL t needle

/-- Go `strings.Contains` on `String`. -/
def goContains (hay needle : String) : Bool := goContainsL hay.data needle.data

/-- Go `strings.Join(elems, sep)`. -/
def goJoin (sep : String) : List String → String
  | [] => ""
  | [s] => s
  | s :: rest => s ++ sep ++ goJoin sep rest

/-- Value of a digit string (used beneath `atoiNat`; callers reject
non-digit strings before trusting the value). -/
def natOfDigits (l : List Char) : Nat :=
  l.foldl (fun n c => n * 10 + (c.toNat - 48)) 0

/-- Digit-run parser underlying `strconv.Atoi`: accepts a non-empty
all-digit string.  Go's `Atoi` additionally fails on 64-bit overflow; the
model parses the full value instead, which classifies every claim-relevant
input identically because every overflowing value is also out of the
1–65535 port range. -/
def atoiNat (l : List Char) : Option Nat :=
  if l ≠ [] ∧ l.all isDigitCh then some (natOfDigits l) else none

/-- Go `strconv.Atoi`: optional single leading sign, then digits. -/
def atoiL (l : List Char) : Option Int :=
  match l with
  | '+' :: rest => (atoiNat rest).map (fun n => (n : Int))
  | '-' :: rest => (atoiNat rest).map (fun n => -(n : Int))
  | _ => (atoiNat l).map (fun n => (n : Int))

/-- One dotted-decimal IPv4 field as accepted by Go `net.ParseIP`
(Go ≥ 1.17 behaviour: a non-zero field must not have a leading zero).
No claim's verdict depends on the leading-zero rule — see `isHostL`:
every dotted-quad string also passes the DNS-name pattern. -/
def ipv4FieldOK (f : List Char) : Bool :=
  (!f.isEmpty) && f.all isDigitCh && decide (natOfDigits f ≤ 255) &&
    (f.length == 1 || f.headD '0' != '0')

/-- Go `net.ParseIP`'s IPv4 path: exactly four valid dot-separated fields. -/
def isIPv4 (l : List Char) : Bool :=
  let fs := splitOnChar '.' l
  fs.length == 4 && fs.all ipv4FieldOK

/-- One 1–4 hex-digit IPv6 group. -/
def hexDigitCh (c : Char) : Bool :=
  isDigitCh c || between 97 102 c.toNat || between 65 70 c.toNat

/-- Non-empty IPv6 group of at most four hex digits. -/
def hexGroupOK (g : List Char) : Bool := between 1 4 g.length && g.all hexDigitCh

/-- Textual IPv6-literal validity (Go `net.ParseIP`'s IPv6 path): either
eight non-empty hex groups, or a single `::` compression standing for at
least one zero group.  Embedded-IPv4 tails (`::ffff:1.2.3.4`) are not
modelled: inside the provider this branch is only ever reached through
strings that contain a colon, and no claim involves an embedded-IPv4
literal. -/
def isIPv6 (l : List Char) : Bool :=
  let gs := splitOnChar ':' l
  let ne := fun g : List Char => (!g.isEmpty) && hexGroupOK g
  if gs.all (fun g => !g.isEmpty) then decide (gs.length = 8) && gs.all ne
  else if gs = [[], [], []] then true
  else
    match gs with
    | [] :: [] :: rest => (!rest.isEmpty) && rest.all ne && decide (rest.length ≤ 7)
    | _ =>
      match gs.reverse with
      | [] :: [] :: rrest => (!rrest.isEmpty) && rrest.all ne && decide (rrest.length ≤ 7)
      | _ =>
        decide (gs.count [] = 1) && (!(gs.headD []).isEmpty) &&
          (!(gs.getLastD []).isEmpty) &&
          gs.all (fun g => g.isEmpty || ne g) && decide (gs.length ≤ 8)

/-- The dispatch loop of Go `net.ParseIP`: the first `'.'` or `':'`
encountered selects the IPv4 or IPv6 parser. -/
def firstDotOrColon : List Char → Option Char
  | [] => none
  | c :: rest =>
    if c = '.' then some '.'
    else if c = ':' then some ':'
    else firstDotOrColon rest

/-- `isIP` from resource_check.go: `net.ParseIP(str) != nil`. -/
def isIPL (l : List Char) : Bool :=
  match firstDotOrColon l with
  | some '.' => isIPv4 l
  | some ':' => isIPv6 l
  | _ => false

/-- First character of a DNS label: `[a-zA-Z0-9_]`. -/
def isLabelHead (c : Char) : Bool := isAlphaCh c || isDigitCh c || c == '_'

/-- Subsequent characters of a DNS label: `[a-zA-Z0-9_-]`. -/
def isLabelCh (c : Char) : Bool := isLabelHead c || c == '-'

/-- One DNS label per `validDNSNamePattern`:
`[a-zA-Z0-9_]{1}[a-zA-Z0-9_-]{0,62}`. -/
def dnsLabelOK : List Char → Bool
  | [] => false
  | c :: rest => isLabelHead c && decide (rest.length ≤ 62) && rest.all isLabelCh

/-- The `L(\.L)*` core of `validDNSNamePattern`: dot-separated valid
labels (the label alternative contains no `'.'`, so the regular
expression's language is exactly "every dot-chunk is a valid label"). -/
def dnsBase (l : List Char) : Bool := (splitOnChar '.' l).all dnsLabelOK

/-- Full `validDNSNamePattern` =
`^(L){1}(\.L)*[\._]?$`: the label core, optionally followed by one
trailing `'.'` or `'_'`. -/
def dnsNameMatch (l : List Char) : Bool :=
  dnsBase l ||
    match l.getLast? with
    | some '.' => dnsBase l.dropLast
    | some '_' => dnsBase l.dropLast
    | _ => false

/-- `isDNSName` from resource_check.go.  Note the length guard applies to
the string with all dots removed (`strings.Replace(str, ".", "", -1)`),
not to the raw string. -/
def isDNSNameL (l : List Char) : Bool :=
  if l.isEmpty || decide (255 < (l.filter (fun c => c ≠ '.')).length) then false
  else (!isIPL l) && dnsNameMatch l

/-- `isHost` from resource_check.go. -/
def isHostL (l : List Char) : Bool := isIPL l || isDNSNameL l

/-- `isHost` on `String`. -/
def isHost (s : String) : Bool := isHostL s.data

/-- `isDNSName` on `String`. -/
def isDNSName (s : String) : Bool := isDNSNameL s.data

/-- Scheme character after the first: `[a-zA-Z0-9+\-.]`
(Go `net/url.getScheme`). -/
def isSchemeCh (c : Char) : Bool :=
  isAlphaCh c || isDigitCh c || c == '+' || c == '-' || c == '.'

/-- Scan of `net/url.getScheme` after its first character: consumes
scheme characters up to the first `':'` and returns `(scheme-tail, rest)`;
`none` when the string ends, or a non-scheme character appears, before a
colon (Go then parses the whole string as a path, leaving `u.Host` empty,
which the validator rejects — so the two outcomes coincide here). -/
def schemeTail : List Char → Option (List Char × List Char)
  | [] => none
  | c :: rest =>
    if c = ':' then some ([], rest)
    else if isSchemeCh c then
      match schemeTail rest with
      | some (sch, r) => some (c :: sch, r)
      | none => none
    else none

/-- `net/url.getScheme`: the first character must be a letter.  A leading
`':'` is a parse error in Go and also yields `none` here; both make the
validator reject. -/
def getScheme : List Char → Option (List Char × List Char)
  | [] => none
  | c :: rest =>
    if isAlphaCh c then
      match schemeTail rest with
      | some (sch, r) => some (c :: sch, r)
      | none => none
    else none

/-- ASCII control character (Go `net/url` rejects URLs containing one). -/
def isCTLCh (c : Char) : Bool := c.toNat < 32 || c.toNat == 127

/-- Whether `u.Host` is non-empty after `net/url.Parse`: the part after
the scheme must start with `"//"`; the authority runs to the first
`'/'`, `'?'` or `'#'`; the host is the authority after the last `'@'`.
Character-level host/port validation of `net/url` (percent-escapes,
invalid port digits) is elided — no claim depends on it, it only removes
further strings from the accepted set of the `http` branch. -/
def urlHostNonempty (rest : List Char) : Bool :=
  match rest with
  | '/' :: '/' :: r =>
    let auth := r.takeWhile (fun c => !(c == '/' || c == '?' || c == '#'))
    !((splitOnChar '@' auth).getLastD []).isEmpty
  | _ => false

/-- `validation.IsURLWithHTTPorHTTPS` (terraform-plugin-sdk) composed
with Go `net/url.Parse`: non-empty, no control characters, a scheme that
lower-cases to `http` or `https` (`Parse` lower-cases `u.Scheme`), and a
non-empty host. -/
def isURLWithHTTPorHTTPSL (l : List Char) : Bool :=
  if l.isEmpty then false
  else if l.any isCTLCh then false
  else
    match getScheme l with
    | some (sch, rest) =>
      (sch.map goToLower = "http".data || sch.map goToLower = "https".data) &&
        urlHostNonempty rest
    | none => false

/-- `validation.IsPortNumber` (terraform-plugin-sdk): 1 ≤ port ≤ 65535. -/
def isPortNumber (n : Int) : Bool := decide (1 ≤ n ∧ n ≤ 65535)

/-- Port-component test of the tcp branch: `strconv.Atoi` must succeed
and the value must pass `validation.IsPortNumber`.  (On an `Atoi` failure
the Go code returns early, on a range failure it falls through; either
way the field has at least one error and validation fails.) -/
def tcpPortOKL (l : List Char) : Bool :=
  match atoiL l with
  | some n => isPortNumber n
  | none => false

/-- `tcpPortOKL` on `String`. -/
def tcpPortOK (s : String) : Bool := tcpPortOKL s.data

/-- The `resource` field's `ValidateFunc` from `checkResource()`
(resource_check.go), as acceptance: `true` iff the value produces no
validation errors.  A `tcp://` value is split after the prefix on `':'`
and must give exactly a host and a port chunk; an `http`-prefixed value
must pass `validation.IsURLWithHTTPorHTTPS`; anything else is rejected. -/
def checkResourceValidateL (v : List Char) : Bool :=
  if "tcp://".data.isPrefixOf v then
    if (splitOnChar ':' (v.drop 6)).length ≠ 2 then false
    else
      isHostL ((splitOnChar ':' (v.drop 6)).headD []) &&
        tcpPortOKL ((splitOnChar ':' (v.drop 6)).getD 1 [])
  else if "http".data.isPrefixOf v then isURLWithHTTPorHTTPSL v
  else false

/-- Resource validator on `String`. -/
def checkResourceValidate (s : String) : Bool := checkResourceValidateL s.data

/-- `strings.ToUpper(strings.Split(v, ":")[0])` from
`constructCheckPayload`: the protocol derived from a resource value. -/
def protocolOf (s : String) : String :=
  ⟨((splitOnChar ':' s.data).headD []).map goToUpper⟩

/-- One alternative of `validUpCodePattern`
(`[1-5][0-9]{2}-[1-5][0-9]{2}` or `[1-5](([0-9]{2}|[0-9]x)|xx)`):
a seven-character range whose fourth character is `'-'`, or a
three-character code/wildcard. -/
def upEntryOK : List Char → Bool
  | [a, b, c] =>
    between 49 53 a.toNat &&
      ((isDigitCh b && isDigitCh c) || (isDigitCh b && c == 'x') ||
        (b == 'x' && c == 'x'))
  | [a, b, c, h, d, e, f] =>
    between 49 53 a.toNat && isDigitCh b && isDigitCh c && h == '-' &&
      between 49 53 d.toNat && isDigitCh e && isDigitCh f
  | _ => false

/-- Acceptance of the anchored regular expression `validUpCodePattern`
`^(E)(,(E))*$` (checked through `validation.StringMatch`): since the
alternative `E` contains no comma, the pattern's language is exactly the
strings every comma-chunk of which matches `E`. -/
def upCodesAccept (s : String) : Bool :=
  (splitOnChar ',' s.data).all upEntryOK

/-- Specification-side: "an exact 3-digit status code" whose hundreds
digit is 1–5. -/
def specCode3 : List Char → Bool
  | [a, b, c] => between 49 53 a.toNat && isDigitCh b && isDigitCh c
  | _ => false

/-- Specification-side: "a wildcard form such as 2xx or 20x" — a 1–5
hundreds digit, then a digit or `'x'`, then `'x'`. -/
def specWildcard : List Char → Bool
  | [a, b, c] => between 49 53 a.toNat && c == 'x' && (isDigitCh b || b == 'x')
  | _ => false

/-- Specification-side: "a hyphenated numeric range NNN-NNN" of two
3-digit codes. -/
def specRange : List Char → Bool
  | [a, b, c, h, d, e, f] =>
    h == '-' && specCode3 [a, b, c] && specCode3 [d, e, f]
  | _ => false

/-- Specification-side up-codes entry: code, wildcard or range. -/
def specUpEntryOK (l : List Char) : Bool :=
  specCode3 l || specWildcard l || specRange l

/-- Specification-side up-codes predicate: a comma-separated list of
valid entries. -/
def specUpCodesOK (s : String) : Bool :=
  (splitOnChar ',' s.data).all specUpEntryOK

/-- `supportedRegions` from resource_check.go. -/
def supportedRegions : List String :=
  ["af-south-1", "ap-east-1", "ap-northeast-1", "ap-south-1",
   "ap-southeast-1", "ap-southeast-2", "eu-central-1", "eu-west-1",
   "sa-east-1", "us-east-1", "us-west-1"]

/-- `stringInSlice` from resource_check.go. -/
def stringInSlice (s : String) : List String → Bool
  | [] => false
  | h :: t => if s = h then true else stringInSlice s t

/-- The error message produced for an unsupported region
(`fmt.Errorf("expected %q to be any of %q", "regions", strings.Join(supportedRegions, ", "))`). -/
def regionsErrMsg : String :=
  "expected \"regions\" to be any of \"" ++ goJoin ", " supportedRegions ++ "\""

/-- The per-element `ValidateFunc` of the `regions` set: `none` on
acceptance, otherwise the (value-independent) error message. -/
def regionValidate (v : String) : Option String :=
  if stringInSlice v supportedRegions then none else some regionsErrMsg

/-- `validation.IntBetween(min, max)` (terraform-plugin-sdk): accepts
`min ≤ v ≤ max`. -/
def intBetween (lo hi v : Int) : Bool := !(decide (v < lo) || decide (hi < v))

/-- The `interval` field's validator: `validation.IntBetween(5, 900)`. -/
def intervalValidate (v : Int) : Bool := intBetween 5 900 v

/-- The fields of a `binocs_check` resource as the payload builder reads
them.  `some x` models `d.GetOk(k) = (x, true)` (the field is set to a
non-zero value); `none` models `ok = false`.  `target` is a float in Go;
its value is only ever copied, never computed with, so an exact rational
carrier is used. -/
structure ResourceData where
  name : Option String
  resource : Option String
  method : Option String
  interval : Option Int
  target : Option Rat
  regions : Option (List String)
  up_codes : Option String
  up_confirmations_threshold : Option Int
  down_confirmations_threshold : Option Int

/-- `binocs.Check`, the outbound check payload (binocs-client-go).  All
fields default to Go zero values. -/
structure Check where
  Name : String := ""
  Resource : String := ""
  Protocol : String := ""
  Method : String := ""
  Interval : Int := 0
  Target : Rat := 0
  Regions : List String := []
  UpCodes : String := ""
  UpConfirmationsThreshold : Int := 0
  DownConfirmationsThreshold : Int := 0

/-- The protocol-conditional `method` block of `constructCheckPayload`:
required for HTTP/HTTPS, forbidden otherwise. -/
def methodStep (p : Check) (m : Option String) : Except String Check :=
  if p.Protocol = "HTTP" ∨ p.Protocol = "HTTPS" then
    match m with
    | some v => .ok { p with Method := v }
    | none =>
      .error ("expected \"method\" to be one of GET, HEAD, POST, PUT, DELETE for a "
        ++ p.Protocol ++ " resource")
  else
    match m with
    | some _ => .error ("\"method\" cannot be used with a " ++ p.Protocol ++ " resource")
    | none => .ok p

/-- The protocol-conditional `up_codes` block of `constructCheckPayload`. -/
def upCodesStep (p : Check) (u : Option String) : Except String Check :=
  if p.Protocol = "HTTP" ∨ p.Protocol = "HTTPS" then
    match u with
    | some v => .ok { p with UpCodes := v }
    | none => .error ("expected \"up_codes\" to be set for a " ++ p.Protocol ++ " resource")
  else
    match u with
    | some _ => .error ("\"up_codes\" cannot be used with a " ++ p.Protocol ++ " resource")
    | none => .ok p

/-- The opening of `constructCheckPayload`: copy `name` if present, then
copy `resource` and derive `Protocol` if present. -/
def initPayload (d : ResourceData) : Check :=
  let p : Check := {}
  let p := match d.name with
    | some v => { p with Name := v }
    | none => p
  match d.resource with
  | some v => { p with Resource := v, Protocol := protocolOf v }
  | none => p

/-- The middle of `constructCheckPayload`: copy `interval`, `target` and
`regions` if present (between the two protocol-conditional blocks). -/
def copyMiddle (p : Check) (d : ResourceData) : Check :=
  let p := match d.interval with
    | some v => { p with Interval := v }
    | none => p
  let p := match d.target with
    | some v => { p with Target := v }
    | none => p
  match d.regions with
  | some v => { p with Regions := v }
  | none => p

/-- The tail of `constructCheckPayload`: copy the two confirmation
thresholds if present. -/
def copyThresholds (p : Check) (d : ResourceData) : Check :=
  let p := match d.up_confirmations_threshold with
    | some v => { p with UpConfirmationsThreshold := v }
    | none => p
  match d.down_confirmations_threshold with
  | some v => { p with DownConfirmationsThreshold := v }
  | none => p

/-- `constructCheckPayload` from resource_check.go: copies the present
fields in source order, derives `Protocol` from the resource value, and
applies the two protocol-conditional blocks; an error aborts with the Go
function's error (callers discard the partial payload on error, which
`Except.error` models). -/
def constructCheckPayload (d : ResourceData) : Except String Check :=
  match methodStep (initPayload d) d.method with
  | .error e => .error e
  | .ok p =>
    match upCodesStep (copyMiddle p d) d.up_codes with
    | .error e => .error e
    | .ok p => .ok (copyThresholds p d)

/-- One remote call of the channel bridge. -/
inductive ChanCall where
  | detach : String → ChanCall
  | attach : String → ChanCall
  deriving DecidableEq

/-- The attach/detach calls issued by `channelUpdate`
(resource_channel.go) after a successful payload update, when every
remote call succeeds: if the `checks` set changed
(`d.HasChange("checks")`), one `Detach` per element of old − new followed
by one `Attach` per element of new − old (`os.Difference(ns)` /
`ns.Difference(os)`); otherwise no calls.  `schema.Set.List()` returns
the elements in an arbitrary order; the model enumerates each difference
in sorted order, one representative of that arbitrariness. -/
def channelUpdateCalls (os ns : Finset String) : List ChanCall :=
  if os ≠ ns then
    (((os \ ns).sort (· ≤ ·)).map ChanCall.detach) ++
      (((ns \ os).sort (· ≤ ·)).map ChanCall.attach)
  else []

/-- `checkRead`'s error result as a function of the remote read outcome
(`client.Checks.Read`): the remote error is wrapped with context.  The
successful field-copy loop itself is not a remote failure and is
modelled as success. -/
def checkReadErr (remoteErr : Option String) : Option String :=
  remoteErr.map (fun e => "unable to read Binocs check: " ++ e)

/-- `channelRead`'s error result as a function of the remote read
outcome. -/
def channelReadErr (remoteErr : Option String) : Option String :=
  remoteErr.map (fun e => "unable to read Binocs channel: " ++ e)

/-- `checkExists` from resource_check.go, as a function of the remote
read outcome and the stored identifier.  Result: (identifier after the
call — `""` models `d.SetId("")` —, the exists flag, the returned
error). -/
def checkExists (remoteErr : Option String) (id : String) :
    String × Bool × Option String :=
  match checkReadErr remoteErr with
  | some e => if goContains e "404" then ("", false, none) else (id, false, some e)
  | none => (id, true, none)

/-- `channelExists` from resource_channel.go (same shape as
`checkExists`, with the channel read's wrapping). -/
def channelExists (remoteErr : Option String) (id : String) :
    String × Bool × Option String :=
  match channelReadErr remoteErr with
  | some e => if goContains e "404" then ("", false, none) else (id, false, some e)
  | none => (id, true, none)

/-- `checkCreate` from resource_check.go, as a function of the payload
construction result, the remote create outcome (`ok` carries the
returned `check.Ident`), the subsequent remote read outcome, and the
initially stored identifier.  Result: (stored identifier, returned
error). -/
def checkCreateRun (payloadRes : Except String Check)
    (createRes : Except String String) (readRemoteErr : Option String)
    (id0 : String) : String × Option String :=
  match payloadRes with
  | .error e => (id0, some e)
  | .ok _ =>
    match createRes with
    | .error e => (id0, some ("unable to create Binocs check: " ++ e))
    | .ok ident => (ident, checkReadErr readRemoteErr)

/-- `binocs.Channel`, the outbound channel payload. -/
structure Channel where
  ChanType : String := ""
  Handle : String := ""
  Alias : String := ""

/-- The attach loop of `channelCreate`: attaches each configured check
in order, aborting with the wrapped error of the first failing remote
`Attach` call (`attachRes c` is that call's outcome for check `c`). -/
def attachLoop (ident : String) (attachRes : String → Option String) :
    List String → Option String
  | [] => none
  | c :: rest =>
    match attachRes c with
    | some e =>
      some ("unable to attach Binocs channel \"" ++ ident ++ "\" to check \""
        ++ c ++ "\": " ++ e)
    | none => attachLoop ident attachRes rest

/-- `channelCreate` from resource_channel.go: payload, remote create
(`ok` carries `channel.Ident`), then — with the identifier already
stored — the attach loop over the configured checks and the final read. -/
def channelCreateRun (payloadRes : Except String Channel)
    (createRes : Except String String) (checks : List String)
    (attachRes : String → Option String) (readRemoteErr : Option String)
    (id0 : String) : String × Option String :=
  match payloadRes with
  | .error e => (id0, some e)
  | .ok _ =>
    match createRes with
    | .error e => (id0, some ("unable to create Binocs channel: " ++ e))
    | .ok ident =>
      match attachLoop ident attachRes checks with
      | some e => (ident, some e)
      | none => (ident, channelReadErr readRemoteErr)

/-- A DNS host of 150 single-character labels: 299 characters in total,
150 of them non-dots. -/
def longDNSHost : String := goJoin "." (List.replicate 150 "a")

/-! ### Helper lemmas -/

theorem splitOnChar_ne_nil (sep : Char) (l : List Char) : splitOnChar sep l ≠ [] := by
  cases l with
  | nil => simp [splitOnChar]
  | cons c rest =>
    rw [splitOnChar]
    split
    · simp
    · split <;> simp

theorem splitOnChar_no_sep {sep : Char} {l : List Char} (h : sep ∉ l) :
    splitOnChar sep l = [l] := by
  induction l with
  | nil => rfl
  | cons c rest ih =>
    have hc : ¬ c = sep := fun hcc => h (hcc ▸ List.mem_cons_self c rest)
    have hr : sep ∉ rest := fun hm => h (List.mem_cons_of_mem _ hm)
    rw [splitOnChar, if_neg hc, ih hr]

theorem splitOnChar_append {sep : Char} {a : List Char} (b : List Char)
    (h : sep ∉ a) : splitOnChar sep (a ++ sep :: b) = a :: splitOnChar sep b := by
  induction a with
  | nil => simp [splitOnChar]
  | cons c rest ih =>
    have hc : ¬ c = sep := fun hcc => h (hcc ▸ List.mem_cons_self c rest)
    have hr : sep ∉ rest := fun hm => h (List.mem_cons_of_mem _ hm)
    rw [List.cons_append, splitOnChar, if_neg hc, ih hr]

theorem splitOnChar_length (sep : Char) (l : List Char) :
    (splitOnChar sep l).length = l.count sep + 1 := by
  induction l with
  | nil => simp [splitOnChar]
  | cons c rest ih =>
    by_cases hc : c = sep
    · subst hc
      rw [splitOnChar, if_pos rfl]
      simp [List.count_cons, ih]
    · rw [splitOnChar, if_neg hc]
      rcases hsp : splitOnChar sep rest with _ | ⟨h0, t⟩
      · exact absurd hsp (splitOnChar_ne_nil sep rest)
      · rw [hsp] at ih
        have hbc : ¬ (c == sep) = true := by simpa using hc
        simp only [List.length_cons, List.count_cons, hbc, if_false]
        simpa using ih

theorem splitOnChar_single {sep : Char} {l x : List Char}
    (h : splitOnChar sep l = [x]) : l = x ∧ sep ∉ l := by
  have hlen := splitOnChar_length sep l
  rw [h] at hlen
  have hcount : l.count sep = 0 := by simpa using hlen.symm
  have hmem : sep ∉ l := List.count_eq_zero.mp hcount
  have hx := splitOnChar_no_sep hmem
  rw [h] at hx
  exact ⟨(List.cons.injEq .. ▸ hx).1.symm ▸ rfl, hmem⟩

theorem splitOnChar_pair {sep : Char} {l a b : List Char}
    (h : splitOnChar sep l = [a, b]) :
    l = a ++ sep :: b ∧ sep ∉ a ∧ sep ∉ b := by
  induction l generalizing a with
  | nil => simp [splitOnChar] at h
  | cons c rest ih =>
    by_cases hc : c = sep
    · subst hc
      rw [splitOnChar, if_pos rfl] at h
      injection h with h1 h2
      obtain ⟨hl, hm⟩ := splitOnChar_single h2
      subst hl
      exact ⟨by rw [← h1]; rfl, by rw [← h1]; simp, hm⟩
    · rw [splitOnChar, if_neg hc] at h
      rcases hsp : splitOnChar sep rest with _ | ⟨h0, t⟩
      · exact absurd hsp (splitOnChar_ne_nil sep rest)
      · rw [hsp] at h
        injection h with h1 h2
        have hrec : splitOnChar sep rest = [h0, b] := by rw [hsp, h2]
        obtain ⟨hl, ha0, hb⟩ := ih hrec
        refine ⟨?_, ?_, hb⟩
        · rw [← h1, hl]; rfl
        · rw [← h1]
          intro hmem
          rcases List.mem_cons.mp hmem with h' | h'
          · exact hc h'.symm
          · exact ha0 h'

theorem splitOnChar_headD_append {sep : Char} {a : List Char} (b : List Char)
    (h : sep ∉ a) : (splitOnChar sep (a ++ sep :: b)).headD [] = a := by
  rw [splitOnChar_append b h]; rfl

theorem goContainsL_cons (c : Char) (t n : List Char) :
    goContainsL (c :: t) n = (n.isPrefixOf (c :: t) || goContainsL t n) := by
  rw [goContainsL]

theorem goContainsL_append_left {m n : List Char} (p : List Char)
    (h : goContainsL m n = true) : goContainsL (p ++ m) n = true := by
  induction p with
  | nil => simpa using h
  | cons c t ih =>
    rw [List.cons_append, goContainsL_cons, Bool.or_eq_true]
    exact Or.inr ih

theorem goContainsL_append_head {p m : List Char} {hd : Char} {tl : List Char}
    (hp : hd ∉ p) (h : goContainsL (p ++ m) (hd :: tl) = true) :
    goContainsL m (hd :: tl) = true := by
  induction p with
  | nil => simpa using h
  | cons c t ih =>
    rw [List.cons_append, goContainsL_cons, Bool.or_eq_true] at h
    rcases h with h1 | h2
    · exfalso
      have hhd : hd = c := by
        simp only [List.isPrefixOf, Bool.and_eq_true, beq_iff_eq] at h1
        exact h1.1
      exact hp (hhd ▸ List.mem_cons_self c t)
    · exact ih (fun hm => hp (List.mem_cons_of_mem _ hm)) h2

theorem toNat_ofNat_valid {n : Nat} (h : n.isValidChar) :
    (Char.ofNat n).toNat = n := by
  unfold Char.ofNat
  rw [dif_pos h]
  rfl

theorem goToUpper_of_goToLower {c t : Char} (h : goToLower c = t)
    (h1 : 97 ≤ t.toNat) (h2 : t.toNat ≤ 122) :
    goToUpper c = Char.ofNat (t.toNat - 32) := by
  unfold goToLower at h
  by_cases hc : 65 ≤ c.toNat ∧ c.toNat ≤ 90
  · rw [if_pos hc] at h
    have hv : (c.toNat + 32).isValidChar := Or.inl (by omega)
    have ht : t.toNat = c.toNat + 32 := by rw [← h, toNat_ofNat_valid hv]
    have hng : ¬ (97 ≤ c.toNat ∧ c.toNat ≤ 122) := by omega
    unfold goToUpper
    rw [if_neg hng]
    have hsub : t.toNat - 32 = c.toNat := by omega
    rw [hsub, Char.ofNat_toNat]
  · rw [if_neg hc] at h
    subst h
    unfold goToUpper
    rw [if_pos ⟨h1, h2⟩]

theorem schemeTail_decomp {l sch r : List Char}
    (h : schemeTail l = some (sch, r)) :
    l = sch ++ ':' :: r ∧ ':' ∉ sch := by
  induction l generalizing sch r with
  | nil => simp [schemeTail] at h
  | cons c rest ih =>
    rw [schemeTail] at h
    by_cases hc : c = ':'
    · rw [if_pos hc] at h
      injection h with hpr
      injection hpr with hs hr
      subst hc; subst hs; subst hr
      exact ⟨rfl, by simp⟩
    · rw [if_neg hc] at h
      by_cases hs : isSchemeCh c = true
      · rw [if_pos hs] at h
        rcases hst : schemeTail rest with _ | ⟨sch', r'⟩
        · rw [hst] at h; exact absurd h (by simp)
        · rw [hst] at h
          injection h with hpr
          injection hpr with h1 h2
          obtain ⟨hd, hni⟩ := ih hst
          subst h2
          refine ⟨?_, ?_⟩
          · rw [← h1, hd]; rfl
          · rw [← h1]
            intro hmem
            rcases List.mem_cons.mp hmem with h' | h'
            · exact hc h'.symm
            · exact hni h'
      · rw [if_neg hs] at h
        exact absurd h (by simp)

theorem getScheme_decomp {l sch r : List Char}
    (h : getScheme l = some (sch, r)) :
    l = sch ++ ':' :: r ∧ ':' ∉ sch := by
  cases l with
  | nil => simp [getScheme] at h
  | cons c rest =>
    rw [getScheme] at h
    by_cases ha : isAlphaCh c = true
    · rw [if_pos ha] at h
      rcases hst : schemeTail rest with _ | ⟨sch', r'⟩
      · rw [hst] at h; exact absurd h (by simp)
      · rw [hst] at h
        injection h with hpr
        injection hpr with h1 h2
        obtain ⟨hd, hni⟩ := schemeTail_decomp hst
        subst h2
        refine ⟨?_, ?_⟩
        · rw [← h1, hd]; rfl
        · rw [← h1]
          intro hmem
          rcases List.mem_cons.mp hmem with h' | h'
          · have : isAlphaCh ':' = true := h' ▸ ha
            exact absurd this (by decide)
          · exact hni h'
    · rw [if_neg ha] at h
      exact absurd h (by simp)

theorem stringInSlice_iff (s : String) (l : List String) :
    stringInSlice s l = true ↔ s ∈ l := by
  induction l with
  | nil => simp [stringInSlice]
  | cons h t ih =>
    rw [stringInSlice]
    by_cases hs : s = h
    · subst hs; simp
    · rw [if_neg hs]
      simp [hs, ih]

theorem all_fn_congr {f g : List Char → Bool} (hfg : ∀ x, f x = g x) :
    ∀ L : List (List Char), L.all f = L.all g := by
  intro L
  induction L with
  | nil => rfl
  | cons x t ih => simp only [List.all_cons, hfg x, ih]

theorem specUpEntry_eq_upEntry (l : List Char) : specUpEntryOK l = upEntryOK l := by
  rcases l with _ | ⟨a, _ | ⟨b, _ | ⟨c, _ | ⟨x, _ | ⟨d, _ | ⟨e, _ | ⟨f, _ | ⟨g, t⟩⟩⟩⟩⟩⟩⟩⟩
  · rfl
  · rfl
  · rfl
  · simp only [specUpEntryOK, specCode3, specWildcard, specRange, upEntryOK]
    cases h1 : between 49 53 a.toNat <;> cases h2 : isDigitCh b <;>
      cases h3 : isDigitCh c <;> cases h4 : b == 'x' <;> cases h5 : c == 'x' <;>
        simp [h1, h2, h3, h4, h5]
  · rfl
  · rfl
  · rfl
  · simp only [specUpEntryOK, specCode3, specWildcard, specRange, upEntryOK]
    cases h1 : x == '-' <;> cases h2 : between 49 53 a.toNat <;>
      cases h3 : isDigitCh b <;> cases h4 : isDigitCh c <;>
        simp [h1, h2, h3, h4, Bool.and_assoc, Bool.and_comm, Bool.and_left_comm]
  · rfl

theorem isIPv6_no_colon {l : List Char} (h : ':' ∉ l) : isIPv6 l = false := by
  unfold isIPv6
  rw [splitOnChar_no_sep h]
  rcases l with _ | ⟨c, t⟩
  · rfl
  · rfl

theorem strData_append (a b : String) : (a ++ b).data = a.data ++ b.data := rfl

theorem strEq_of_data {a b : String} (h : a.data = b.data) : a = b := by
  cases a; cases b; exact congrArg String.mk h

theorem isPrefixOf_exists {l₁ l₂ : List Char} :
    l₁.isPrefixOf l₂ = true ↔ ∃ t, l₂ = l₁ ++ t := by
  induction l₁ generalizing l₂ with
  | nil => simp
  | cons a as ih =>
    cases l₂ with
    | nil => simp [List.isPrefixOf]
    | cons b bs =>
      constructor
      · intro h
        have h' : (a == b && as.isPrefixOf bs) = true := h
        rw [Bool.and_eq_true, beq_iff_eq] at h'
        obtain ⟨t, ht⟩ := ih.mp h'.2
        exact ⟨t, by rw [ht, h'.1, List.cons_append]⟩
      · rintro ⟨t, ht⟩
        rw [List.cons_append] at ht
        injection ht with h1 h2
        show (a == b && as.isPrefixOf bs) = true
        rw [Bool.and_eq_true, beq_iff_eq]
        exact ⟨h1.symm, ih.mpr ⟨t, h2⟩⟩

theorem tcp_concat_data (hs ps : String) :
    ("tcp://" ++ hs ++ ":" ++ ps).data
      = "tcp://".data ++ (hs.data ++ ':' :: ps.data) := by
  show (("tcp://".data ++ hs.data) ++ ":".data) ++ ps.data
    = "tcp://".data ++ (hs.data ++ ':' :: ps.data)
  have hc : ":".data = [':'] := rfl
  rw [hc, List.append_assoc, List.append_assoc, List.singleton_append]

/-! ### Claim theorems -/

/-- C9: the `interval` validator accepts an integer value iff it lies in
the inclusive range [5, 900]; in particular 4 and 901 are rejected and
900 is accepted. -/
theorem c9_interval_range :
    (∀ v : Int, intervalValidate v = true ↔ 5 ≤ v ∧ v ≤ 900) ∧
      intervalValidate 4 = false ∧ intervalValidate 900 = true ∧
      intervalValidate 901 = false := by
  refine ⟨fun v => ?_, by decide, by decide, by decide⟩
  unfold intervalValidate intBetween
  simp only [Bool.not_eq_true', Bool.or_eq_false_iff, decide_eq_false_iff_not,
    Int.not_lt]

/-- C5: the up_codes validator accepts a string iff it is a
comma-separated list of entries, each an exact 3-digit status code, a
wildcard form (such as 2xx or 20x) or a hyphenated range NNN-NNN, with
every digit-leading component's hundreds digit in 1–5; the spec's
examples evaluate as claimed. -/
theorem c5_up_codes_grammar :
    (∀ s : String, upCodesAccept s = true ↔ specUpCodesOK s = true) ∧
      upCodesAccept "200" = true ∧ upCodesAccept "2xx" = true ∧
      upCodesAccept "200-302" = true ∧ upCodesAccept "200,301" = true ∧
      upCodesAccept "abc" = false ∧ upCodesAccept "600" = false ∧
      upCodesAccept "200-" = false := by
  refine ⟨fun s => ?_, by decide, by decide, by decide, by decide, by decide,
    by decide, by decide⟩
  unfold upCodesAccept specUpCodesOK
  rw [all_fn_congr specUpEntry_eq_upEntry (splitOnChar ',' s.data)]

/-- C8 counterexample: the unknown region "mars-1" is rejected, but the
validation error does not name the offending value — the message contains
the field name and the supported list, not "mars-1". -/
theorem c8_region_error_counterexample :
    regionValidate "mars-1" ≠ none ∧
      goContains ((regionValidate "mars-1").getD "") "mars-1" = false := by
  exact ⟨by decide, by decide⟩

/-- C8 (amended): a `regions` element is accepted iff it belongs to the
fixed eleven-entry enumeration; each unknown value is rejected
individually with an error naming the field and listing the supported
values (the offending value itself does not appear in the message). -/
theorem c8_region_membership (v : String) :
    (regionValidate v = none ↔ v ∈ supportedRegions) ∧
      (v ∉ supportedRegions → regionValidate v = some regionsErrMsg) := by
  by_cases h : v ∈ supportedRegions
  · have hb : stringInSlice v supportedRegions = true :=
      (stringInSlice_iff v supportedRegions).mpr h
    exact ⟨by simp [regionValidate, hb, h], fun hn => absurd h hn⟩
  · have hb : stringInSlice v supportedRegions = false := by
      rw [← Bool.not_eq_true]
      exact fun hh => h ((stringInSlice_iff v supportedRegions).mp hh)
    exact ⟨by simp [regionValidate, hb, h], fun _ => by simp [regionValidate, hb]⟩

/-- C8 witness: the amended theorem applied to the unknown region
"eu-west-9". -/
theorem c8_region_membership_witness :
    regionValidate "eu-west-9" = some regionsErrMsg :=
  (c8_region_membership "eu-west-9").2 (by decide)

/-- C7 (amended): `isDNSName` accepts a host only if the number of its
non-dot characters is at most 255 (the Go guard measures the string with
all dots removed, `strings.Replace(str, ".", "", -1)`), and only if its
labels match the DNS-name pattern; the raw length including dots may
exceed 255. -/
theorem c7_dns_length (s : String) (h : isDNSName s = true) :
    (s.data.filter (fun c => c ≠ '.')).length ≤ 255 ∧
      dnsNameMatch s.data = true := by
  unfold isDNSName isDNSNameL at h
  split at h
  · exact absurd h (by simp)
  · rename_i hg
    rw [Bool.or_eq_true, not_or] at hg
    obtain ⟨-, hg2⟩ := hg
    have hlen : (s.data.filter (fun c => c ≠ '.')).length ≤ 255 := by
      have := hg2
      simp only [decide_eq_true_eq] at this
      omega
    rw [Bool.and_eq_true] at h
    exact ⟨hlen, h.2⟩

/-- C7 witness: the amended theorem applied to "example.com". -/
theorem c7_dns_length_witness :
    ("example.com".data.filter (fun c => c ≠ '.')).length ≤ 255 ∧
      dnsNameMatch "example.com".data = true :=
  c7_dns_length "example.com" (by decide)

set_option maxRecDepth 4000 in
/-- C7 counterexample: `longDNSHost` is a 299-character DNS host (150
one-character labels) that `isDNSName` accepts and that resource
validation accepts as a tcp host, refuting "a DNS host longer than 255
characters is rejected by resource validation". -/
theorem c7_dns_length_counterexample :
    255 < longDNSHost.length ∧ isDNSName longDNSHost = true ∧
      checkResourceValidate ("tcp://" ++ longDNSHost ++ ":80") = true := by
  exact ⟨by decide, by decide, by decide⟩

/-- C4: when the remote read behind a check/channel existence test fails
with an error whose message contains "404", the bridge clears the stored
identifier and reports the entity absent with no error; when the failure
lacks the 404 indicator, the wrapped read error is propagated and the
identifier is kept. -/
theorem c4_exists_not_found (msg id : String) :
    (goContains msg "404" = true →
      checkExists (some msg) id = ("", false, none) ∧
        channelExists (some msg) id = ("", false, none)) ∧
    (goContains msg "404" = false →
      checkExists (some msg) id =
          (id, false, some ("unable to read Binocs check: " ++ msg)) ∧
        channelExists (some msg) id =
          (id, false, some ("unable to read Binocs channel: " ++ msg))) := by
  constructor
  · intro h404
    have hck : goContains ("unable to read Binocs check: " ++ msg) "404" = true :=
      goContainsL_append_left "unable to read Binocs check: ".data h404
    have hcn : goContains ("unable to read Binocs channel: " ++ msg) "404" = true :=
      goContainsL_append_left "unable to read Binocs channel: ".data h404
    constructor
    · simp [checkExists, checkReadErr, hck]
    · simp [channelExists, channelReadErr, hcn]
  · intro h404
    have hck : goContains ("unable to read Binocs check: " ++ msg) "404" = false := by
      rw [← Bool.not_eq_true]
      intro hc
      have h2 : goContains msg "404" = true :=
        goContainsL_append_head (p := "unable to read Binocs check: ".data)
          (by decide) hc
      rw [h404] at h2
      exact Bool.false_ne_true h2
    have hcn : goContains ("unable to read Binocs channel: " ++ msg) "404" = false := by
      rw [← Bool.not_eq_true]
      intro hc
      have h2 : goContains msg "404" = true :=
        goContainsL_append_head (p := "unable to read Binocs channel: ".data)
          (by decide) hc
      rw [h404] at h2
      exact Bool.false_ne_true h2
    constructor
    · simp [checkExists, checkReadErr, hck]
    · simp [channelExists, channelReadErr, hcn]

/-- C4 witness: a 404-carrying read clears the check identifier and
reports absence; a non-404 read error is propagated wrapped for the
channel. -/
theorem c4_exists_not_found_witness :
    checkExists (some "binocs API responded 404") "chk1" = ("", false, none) ∧
      channelExists (some "rate limited") "chn1" =
        ("chn1", false, some ("unable to read Binocs channel: " ++ "rate limited")) :=
  ⟨((c4_exists_not_found "binocs API responded 404" "chk1").1 (by decide)).1,
   ((c4_exists_not_found "rate limited" "chn1").2 (by decide)).2⟩

/-- C6: a failing remote create surfaces the wrapped error and leaves the
stored identifier unchanged (no state is persisted), for both checks and
channels; a successful create stores the returned identifier. -/
theorem c6_create_id_handling (p : Check) (q : Channel) (e ident id0 : String)
    (readErr : Option String) (checks : List String)
    (attachRes : String → Option String) :
    checkCreateRun (.ok p) (.error e) readErr id0 =
        (id0, some ("unable to create Binocs check: " ++ e)) ∧
      (checkCreateRun (.ok p) (.ok ident) readErr id0).1 = ident ∧
      channelCreateRun (.ok q) (.error e) checks attachRes readErr id0 =
        (id0, some ("unable to create Binocs channel: " ++ e)) ∧
      (channelCreateRun (.ok q) (.ok ident) checks attachRes readErr id0).1 = ident := by
  refine ⟨rfl, rfl, rfl, ?_⟩
  rcases hal : attachLoop ident attachRes checks with _ | e2 <;>
    simp [channelCreateRun, hal]

/-- C3: when the desired `checks` set differs from the previous one, the
channel update bridge issues exactly one detach call per identifier in
(previous − desired), exactly one attach call per identifier in
(desired − previous), and no call at all for an identifier in both sets. -/
theorem c3_channel_update_diff (os ns : Finset String) (h : os ≠ ns) (a : String) :
    ((channelUpdateCalls os ns).count (ChanCall.detach a) =
        if a ∈ os \ ns then 1 else 0) ∧
      ((channelUpdateCalls os ns).count (ChanCall.attach a) =
        if a ∈ ns \ os then 1 else 0) ∧
      (a ∈ os → a ∈ ns →
        (channelUpdateCalls os ns).count (ChanCall.detach a) = 0 ∧
          (channelUpdateCalls os ns).count (ChanCall.attach a) = 0) := by
  have hdet : Function.Injective ChanCall.detach := fun x y hxy => by
    cases hxy; rfl
  have hatt : Function.Injective ChanCall.attach := fun x y hxy => by
    cases hxy; rfl
  have hd0 : ∀ (s : Finset String),
      ((s.sort (· ≤ ·)).map ChanCall.attach).count (ChanCall.detach a) = 0 := by
    intro s
    rw [List.count_eq_zero]
    intro hmem
    obtain ⟨b, -, hb⟩ := List.mem_map.mp hmem
    exact ChanCall.noConfusion hb
  have ha0 : ∀ (s : Finset String),
      ((s.sort (· ≤ ·)).map ChanCall.detach).count (ChanCall.attach a) = 0 := by
    intro s
    rw [List.count_eq_zero]
    intro hmem
    obtain ⟨b, -, hb⟩ := List.mem_map.mp hmem
    exact ChanCall.noConfusion hb
  have hcd : ∀ (s : Finset String),
      ((s.sort (· ≤ ·)).map ChanCall.detach).count (ChanCall.detach a) =
        if a ∈ s then 1 else 0 := by
    intro s
    rw [List.count_map_of_injective _ _ hdet]
    rw [List.count_eq_of_nodup (Finset.sort_nodup _ s)]
    simp [Finset.mem_sort]
  have hca : ∀ (s : Finset String),
      ((s.sort (· ≤ ·)).map ChanCall.attach).count (ChanCall.attach a) =
        if a ∈ s then 1 else 0 := by
    intro s
    rw [List.count_map_of_injective _ _ hatt]
    rw [List.count_eq_of_nodup (Finset.sort_nodup _ s)]
    simp [Finset.mem_sort]
  unfold channelUpdateCalls
  rw [if_pos h]
  rw [List.count_append, List.count_append]
  rw [hcd, hd0, hca, ha0]
  refine ⟨by omega, by omega, fun hos hns => ?_⟩
  have h1 : a ∉ os \ ns := by simp [Finset.mem_sdiff, hns]
  have h2 : a ∉ ns \ os := by simp [Finset.mem_sdiff, hos]
  rw [if_neg h1, if_neg h2]
  omega

/-- C3 witness: changing the checks from {A, B} to {B, C} issues exactly
one detach for A, one attach for C, and no calls for B. -/
theorem c3_channel_update_diff_witness :
    (channelUpdateCalls {"A", "B"} {"B", "C"}).count (ChanCall.detach "A") = 1 ∧
      (channelUpdateCalls {"A", "B"} {"B", "C"}).count (ChanCall.attach "C") = 1 ∧
      (channelUpdateCalls {"A", "B"} {"B", "C"}).count (ChanCall.detach "B") = 0 ∧
      (channelUpdateCalls {"A", "B"} {"B", "C"}).count (ChanCall.attach "B") = 0 := by
  have hA := (c3_channel_update_diff {"A", "B"} {"B", "C"} (by decide) "A").1
  have hC := (c3_channel_update_diff {"A", "B"} {"B", "C"} (by decide) "C").2.1
  have hB := (c3_channel_update_diff {"A", "B"} {"B", "C"} (by decide) "B").2.2
    (by decide) (by decide)
  rw [if_pos (by decide)] at hA
  rw [if_pos (by decide)] at hC
  exact ⟨hA, hC, hB.1, hB.2⟩

/-- C1 counterexample: "tcp://::1:8080" is `tcp://` followed by the valid
IPv6 literal "::1", a colon, and the in-range port "8080" — so the claim
requires acceptance — but the validator rejects it: splitting "::1:8080"
on ':' yields four chunks, not a host and a port. -/
theorem c1_resource_tcp_counterexample :
    ("tcp://::1:8080" : String) = "tcp://" ++ "::1" ++ ":" ++ "8080" ∧
      isIPv6 "::1".data = true ∧ tcpPortOK "8080" = true ∧
      checkResourceValidate "tcp://::1:8080" = false :=
  ⟨by decide, by decide, by decide, by decide⟩

/-- C1 (amended): a value starting with `tcp://` is accepted iff the
remainder contains exactly one colon, splitting it into a host accepted
by the code's IP-or-DNS test (`isHost`) and a port accepted by the
Atoi/port-range test; a host that is a valid IPv6 literal contains colons
itself, makes the split exceed two chunks, and is therefore always
rejected. -/
theorem c1_resource_tcp (v : String)
    (hpre : "tcp://".data.isPrefixOf v.data = true) :
    (checkResourceValidate v = true ↔
      ∃ hs ps : String, v = "tcp://" ++ hs ++ ":" ++ ps ∧ ':' ∉ hs.data ∧
        ':' ∉ ps.data ∧ isHost hs = true ∧ tcpPortOK ps = true) ∧
    (∀ h6 p6 : String, isIPv6 h6.data = true →
      checkResourceValidate ("tcp://" ++ h6 ++ ":" ++ p6) = false) := by
  constructor
  · constructor
    · intro hacc
      unfold checkResourceValidate checkResourceValidateL at hacc
      rw [if_pos hpre] at hacc
      obtain ⟨r, hr⟩ := isPrefixOf_exists.mp hpre
      have hdrop : v.data.drop 6 = r := by
        rw [hr]; exact List.drop_left' (by decide)
      rw [hdrop] at hacc
      split at hacc
      · exact absurd hacc (by simp)
      · rename_i hlen
        have hlen2 : (splitOnChar ':' r).length = 2 := not_not.mp hlen
        rcases hsp : splitOnChar ':' r with _ | ⟨a, _ | ⟨b, _ | ⟨c, t⟩⟩⟩ <;>
          rw [hsp] at hlen2 <;> try simp at hlen2
        obtain ⟨hdec, hna, hnb⟩ := splitOnChar_pair hsp
        rw [hsp] at hacc
        rw [Bool.and_eq_true] at hacc
        refine ⟨⟨a⟩, ⟨b⟩, ?_, hna, hnb, hacc.1, hacc.2⟩
        apply strEq_of_data
        rw [tcp_concat_data, hr, hdec]
    · rintro ⟨hs, ps, hveq, hna, hnb, hH, hP⟩
      subst hveq
      unfold checkResourceValidate checkResourceValidateL
      have hpre2 : "tcp://".data.isPrefixOf ("tcp://" ++ hs ++ ":" ++ ps).data = true :=
        isPrefixOf_exists.mpr ⟨_, tcp_concat_data hs ps⟩
      rw [if_pos hpre2]
      rw [show ("tcp://" ++ hs ++ ":" ++ ps).data.drop 6 = hs.data ++ ':' :: ps.data from by
        rw [tcp_concat_data]; exact List.drop_left' (by decide)]
      rw [splitOnChar_append _ hna, splitOnChar_no_sep hnb]
      rw [if_neg (by simp)]
      rw [Bool.and_eq_true]
      exact ⟨hH, hP⟩
  · intro h6 p6 h66
    unfold checkResourceValidate checkResourceValidateL
    have hpre2 : "tcp://".data.isPrefixOf ("tcp://" ++ h6 ++ ":" ++ p6).data = true :=
      isPrefixOf_exists.mpr ⟨_, tcp_concat_data h6 p6⟩
    rw [if_pos hpre2]
    rw [show ("tcp://" ++ h6 ++ ":" ++ p6).data.drop 6 = h6.data ++ ':' :: p6.data from by
      rw [tcp_concat_data]; exact List.drop_left' (by decide)]
    have hcol : ':' ∈ h6.data := by
      by_contra hnc
      rw [isIPv6_no_colon hnc] at h66
      exact Bool.false_ne_true h66
    have hcz : h6.data.count ':' ≠ 0 := fun h0 => (List.count_eq_zero.mp h0) hcol
    have hlen : (splitOnChar ':' (h6.data ++ ':' :: p6.data)).length ≠ 2 := by
      rw [splitOnChar_length]
      simp only [List.count_append, List.count_cons]
      simp
      omega
    rw [if_pos hlen]

/-- C1 witness: the amended theorem applied to "tcp://example.com:80",
which is accepted. -/
theorem c1_resource_tcp_witness :
    checkResourceValidate "tcp://example.com:80" = true :=
  ((c1_resource_tcp "tcp://example.com:80" (by decide)).1).mpr
    ⟨"example.com", "80", by decide, by decide, by decide, by decide, by decide⟩

theorem map_goToUpper_of_map_goToLower {sch low : List Char}
    (h : sch.map goToLower = low)
    (hlow : ∀ c ∈ low, 97 ≤ c.toNat ∧ c.toNat ≤ 122) :
    sch.map goToUpper = low.map (fun c => Char.ofNat (c.toNat - 32)) := by
  induction sch generalizing low with
  | nil => subst h; rfl
  | cons c t ih =>
    cases low with
    | nil => simp at h
    | cons d ds =>
      rw [List.map_cons] at h
      injection h with h1 h2
      have hd := hlow d (List.mem_cons_self _ _)
      rw [List.map_cons, List.map_cons,
        goToUpper_of_goToLower h1 hd.1 hd.2,
        ih h2 (fun x hx => hlow x (List.mem_cons_of_mem _ hx))]

/-- C10: every resource value accepted by the validator derives a
protocol — the upper-cased text before the first colon — of exactly HTTP,
HTTPS or TCP, so the payload builder's protocol conditionals are
exhaustive over validated resources. -/
theorem c10_protocol_exhaustive (v : String)
    (h : checkResourceValidate v = true) :
    protocolOf v = "HTTP" ∨ protocolOf v = "HTTPS" ∨ protocolOf v = "TCP" := by
  unfold checkResourceValidate checkResourceValidateL at h
  by_cases htcp : "tcp://".data.isPrefixOf v.data = true
  · right; right
    obtain ⟨r, hr⟩ := isPrefixOf_exists.mp htcp
    unfold protocolOf
    rw [hr, show "tcp://".data ++ r = ['t', 'c', 'p'] ++ ':' :: ('/' :: '/' :: r) from rfl,
      splitOnChar_headD_append _ (by decide)]
    decide
  · rw [if_neg htcp] at h
    by_cases hhttp : "http".data.isPrefixOf v.data = true
    · rw [if_pos hhttp] at h
      unfold isURLWithHTTPorHTTPSL at h
      split at h
      · exact absurd h (by simp)
      · split at h
        · exact absurd h (by simp)
        · rcases hgs : getScheme v.data with _ | ⟨sch, rest⟩
          · rw [hgs] at h; exact absurd h (by simp)
          · rw [hgs] at h
            rw [Bool.and_eq_true] at h
            have hlow := h.1
            rw [Bool.or_eq_true] at hlow
            obtain ⟨hdec, hnc⟩ := getScheme_decomp hgs
            have hhead : (splitOnChar ':' v.data).headD [] = sch := by
              rw [hdec]; exact splitOnChar_headD_append _ hnc
            unfold protocolOf
            rw [hhead]
            rcases hlow with hl | hl
            · left
              rw [decide_eq_true_eq] at hl
              rw [map_goToUpper_of_map_goToLower hl (by decide)]
              decide
            · right; left
              rw [decide_eq_true_eq] at hl
              rw [map_goToUpper_of_map_goToLower hl (by decide)]
              decide
    · rw [if_neg hhttp] at h
      exact absurd h (by simp)

/-- C10 witness: the derived protocol of the accepted resource
"https://example.com" is one of the three protocols. -/
theorem c10_protocol_exhaustive_witness :
    protocolOf "https://example.com" = "HTTP" ∨
      protocolOf "https://example.com" = "HTTPS" ∨
      protocolOf "https://example.com" = "TCP" :=
  c10_protocol_exhaustive "https://example.com" (by decide)

theorem initPayload_Protocol {d : ResourceData} {r : String}
    (hres : d.resource = some r) : (initPayload d).Protocol = protocolOf r := by
  unfold initPayload
  rw [hres]

theorem initPayload_Method (d : ResourceData) : (initPayload d).Method = "" := by
  unfold initPayload
  cases d.name <;> cases d.resource <;> rfl

theorem initPayload_UpCodes (d : ResourceData) : (initPayload d).UpCodes = "" := by
  unfold initPayload
  cases d.name <;> cases d.resource <;> rfl

theorem copyMiddle_Protocol (p : Check) (d : ResourceData) :
    (copyMiddle p d).Protocol = p.Protocol := by
  unfold copyMiddle
  cases d.interval <;> cases d.target <;> cases d.regions <;> rfl

theorem copyMiddle_Method (p : Check) (d : ResourceData) :
    (copyMiddle p d).Method = p.Method := by
  unfold copyMiddle
  cases d.interval <;> cases d.target <;> cases d.regions <;> rfl

theorem copyMiddle_UpCodes (p : Check) (d : ResourceData) :
    (copyMiddle p d).UpCodes = p.UpCodes := by
  unfold copyMiddle
  cases d.interval <;> cases d.target <;> cases d.regions <;> rfl

theorem copyThresholds_Method (p : Check) (d : ResourceData) :
    (copyThresholds p d).Method = p.Method := by
  unfold copyThresholds
  cases d.up_confirmations_threshold <;> cases d.down_confirmations_threshold <;> rfl

theorem copyThresholds_UpCodes (p : Check) (d : ResourceData) :
    (copyThresholds p d).UpCodes = p.UpCodes := by
  unfold copyThresholds
  cases d.up_confirmations_threshold <;> cases d.down_confirmations_threshold <;> rfl

theorem methodStep_web_some (p : Check) (m : String)
    (hP : p.Protocol = "HTTP" ∨ p.Protocol = "HTTPS") :
    methodStep p (some m) = .ok { p with Method := m } := by
  unfold methodStep; rw [if_pos hP]

theorem methodStep_web_none (p : Check)
    (hP : p.Protocol = "HTTP" ∨ p.Protocol = "HTTPS") :
    methodStep p none =
      .error ("expected \"method\" to be one of GET, HEAD, POST, PUT, DELETE for a "
        ++ p.Protocol ++ " resource") := by
  unfold methodStep; rw [if_pos hP]

theorem methodStep_other_some (p : Check) (m : String)
    (hP : ¬ (p.Protocol = "HTTP" ∨ p.Protocol = "HTTPS")) :
    methodStep p (some m) =
      .error ("\"method\" cannot be used with a " ++ p.Protocol ++ " resource") := by
  unfold methodStep; rw [if_neg hP]

theorem methodStep_other_none (p : Check)
    (hP : ¬ (p.Protocol = "HTTP" ∨ p.Protocol = "HTTPS")) :
    methodStep p none = .ok p := by
  unfold methodStep; rw [if_neg hP]

theorem upCodesStep_web_some (p : Check) (u : String)
    (hP : p.Protocol = "HTTP" ∨ p.Protocol = "HTTPS") :
    upCodesStep p (some u) = .ok { p with UpCodes := u } := by
  unfold upCodesStep; rw [if_pos hP]

theorem upCodesStep_web_none (p : Check)
    (hP : p.Protocol = "HTTP" ∨ p.Protocol = "HTTPS") :
    upCodesStep p none =
      .error ("expected \"up_codes\" to be set for a " ++ p.Protocol ++ " resource") := by
  unfold upCodesStep; rw [if_pos hP]

theorem upCodesStep_other_some (p : Check) (u : String)
    (hP : ¬ (p.Protocol = "HTTP" ∨ p.Protocol = "HTTPS")) :
    upCodesStep p (some u) =
      .error ("\"up_codes\" cannot be used with a " ++ p.Protocol ++ " resource") := by
  unfold upCodesStep; rw [if_neg hP]

theorem upCodesStep_other_none (p : Check)
    (hP : ¬ (p.Protocol = "HTTP" ∨ p.Protocol = "HTTPS")) :
    upCodesStep p none = .ok p := by
  unfold upCodesStep; rw [if_neg hP]

theorem construct_of_methodStep_error {d : ResourceData} {e : String}
    (hm : methodStep (initPayload d) d.method = .error e) :
    constructCheckPayload d = .error e := by
  unfold constructCheckPayload; rw [hm]

theorem construct_of_methodStep_ok {d : ResourceData} {p : Check}
    (hm : methodStep (initPayload d) d.method = .ok p) :
    constructCheckPayload d =
      match upCodesStep (copyMiddle p d) d.up_codes with
      | .error e => .error e
      | .ok p2 => .ok (copyThresholds p2 d) := by
  unfold constructCheckPayload; rw [hm]

/-- C2: with the resource present, payload construction under derived
protocol HTTP or HTTPS succeeds iff both `method` and `up_codes` are
present — the successful payload carries both — while under derived
protocol TCP it succeeds iff neither is present, and the successful
payload carries neither. -/
theorem c2_payload_protocol_rules (d : ResourceData) (r : String)
    (hres : d.resource = some r) :
    ((protocolOf r = "HTTP" ∨ protocolOf r = "HTTPS") →
      ((∃ c, constructCheckPayload d = .ok c) ↔
        (d.method ≠ none ∧ d.up_codes ≠ none)) ∧
      (∀ m u, d.method = some m → d.up_codes = some u →
        ∃ c, constructCheckPayload d = .ok c ∧ c.Method = m ∧ c.UpCodes = u)) ∧
    (protocolOf r = "TCP" →
      ((∃ c, constructCheckPayload d = .ok c) ↔
        (d.method = none ∧ d.up_codes = none)) ∧
      (∀ c, constructCheckPayload d = .ok c →
        c.Method = "" ∧ c.UpCodes = "")) := by
  have hPr := initPayload_Protocol hres
  constructor
  · intro hP
    have hP0 : (initPayload d).Protocol = "HTTP" ∨ (initPayload d).Protocol = "HTTPS" := by
      rw [hPr]; exact hP
    rcases hm : d.method with _ | m
    · have he := construct_of_methodStep_error (d := d)
        (by rw [hm]; exact methodStep_web_none _ hP0)
      refine ⟨⟨?_, ?_⟩, ?_⟩
      · rintro ⟨c, hc⟩; rw [he] at hc; exact absurd hc (by simp)
      · rintro ⟨hm', -⟩; exact absurd rfl hm'
      · intro m u hmm _; exact absurd hmm (by simp)
    · have hOk1 : methodStep (initPayload d) d.method
          = .ok { initPayload d with Method := m } := by
        rw [hm]; exact methodStep_web_some _ _ hP0
      have hP1 : (copyMiddle { initPayload d with Method := m } d).Protocol = "HTTP" ∨
          (copyMiddle { initPayload d with Method := m } d).Protocol = "HTTPS" := by
        rw [copyMiddle_Protocol]; exact hP0
      rcases hu : d.up_codes with _ | u
      · have he2 : constructCheckPayload d =
            .error ("expected \"up_codes\" to be set for a "
              ++ (copyMiddle { initPayload d with Method := m } d).Protocol
              ++ " resource") := by
          rw [construct_of_methodStep_ok hOk1, hu, upCodesStep_web_none _ hP1]
        refine ⟨⟨?_, ?_⟩, ?_⟩
        · rintro ⟨c, hc⟩; rw [he2] at hc; exact absurd hc (by simp)
        · rintro ⟨-, hu'⟩; exact absurd rfl hu'
        · intro m' u' _ huu; exact absurd huu (by simp)
      · have hok : constructCheckPayload d =
            .ok (copyThresholds
              { copyMiddle { initPayload d with Method := m } d with UpCodes := u } d) := by
          rw [construct_of_methodStep_ok hOk1, hu, upCodesStep_web_some _ _ hP1]
        refine ⟨⟨?_, ?_⟩, ?_⟩
        · intro _; exact ⟨by simp [hm], by simp [hu]⟩
        · intro _; exact ⟨_, hok⟩
        · intro m' u' hm' hu'
          injection hm' with hm'; injection hu' with hu'
          subst hm'; subst hu'
          refine ⟨_, hok, ?_, ?_⟩
          · simp [copyThresholds_Method, copyMiddle_Method]
          · simp [copyThresholds_UpCodes]
  · intro hP
    have hP0 : ¬ ((initPayload d).Protocol = "HTTP" ∨ (initPayload d).Protocol = "HTTPS") := by
      rw [hPr, hP]; decide
    rcases hm : d.method with _ | m
    · have hOk1 : methodStep (initPayload d) d.method = .ok (initPayload d) := by
        rw [hm]; exact methodStep_other_none _ hP0
      have hP1 : ¬ ((copyMiddle (initPayload d) d).Protocol = "HTTP" ∨
          (copyMiddle (initPayload d) d).Protocol = "HTTPS") := by
        rw [copyMiddle_Protocol]; exact hP0
      rcases hu : d.up_codes with _ | u
      · have hok : constructCheckPayload d =
            .ok (copyThresholds (copyMiddle (initPayload d) d) d) := by
          rw [construct_of_methodStep_ok hOk1, hu, upCodesStep_other_none _ hP1]
        refine ⟨⟨?_, ?_⟩, ?_⟩
        · intro _; exact ⟨rfl, rfl⟩
        · intro _; exact ⟨_, hok⟩
        · intro c hc
          rw [hok] at hc
          injection hc with hc
          subst hc
          constructor
          · rw [copyThresholds_Method, copyMiddle_Method, initPayload_Method]
          · rw [copyThresholds_UpCodes, copyMiddle_UpCodes, initPayload_UpCodes]
      · have he2 : constructCheckPayload d =
            .error ("\"up_codes\" cannot be used with a "
              ++ (copyMiddle (initPayload d) d).Protocol ++ " resource") := by
          rw [construct_of_methodStep_ok hOk1, hu, upCodesStep_other_some _ _ hP1]
        refine ⟨⟨?_, ?_⟩, ?_⟩
        · rintro ⟨c, hc⟩; rw [he2] at hc; exact absurd hc (by simp)
        · rintro ⟨-, hu'⟩; exact absurd hu' (by simp)
        · intro c hc; rw [he2] at hc; exact absurd hc (by simp)
    · have he := construct_of_methodStep_error (d := d)
        (by rw [hm]; exact methodStep_other_some _ _ hP0)
      refine ⟨⟨?_, ?_⟩, ?_⟩
      · rintro ⟨c, hc⟩; rw [he] at hc; exact absurd hc (by simp)
      · rintro ⟨hm', -⟩; exact absurd hm' (by simp)
      · intro c hc; rw [he] at hc; exact absurd hc (by simp)

/-- C2 witness: a fully-populated HTTPS field set constructs successfully
and the payload carries the configured method and up_codes. -/
theorem c2_payload_protocol_rules_witness :
    ∃ c, constructCheckPayload
        ⟨some "api", some "https://example.com/health", some "GET", some 60,
          some 1, some ["eu-west-1"], some "200", some 2, some 2⟩ = .ok c ∧
      c.Method = "GET" ∧ c.UpCodes = "200" :=
  ((c2_payload_protocol_rules _ "https://example.com/health" rfl).1
    (Or.inr (by decide))).2 "GET" "200" rfl rfl

end Binocs
